import Mathlib

/-!
Verification of the `metrics` Go library (samples, meter, timer, registry)
against its specification.  The Go source is shallowly embedded: wall-clock
times are integer nanosecond counts (`time.Time` / `time.Duration` both hold
nanoseconds), `float64` arithmetic is modelled over the reals, the random
sources (`rand.Float64`, `rand.Int63n`) are oracle inputs, and a Go runtime
panic is modelled by `Option.none`.
-/

namespace Metrics

/-- Swap two positions of a list, as Go's `q[i], q[j] = q[j], q[i]`.
Indices are in range at every call site reached by the heap algorithms;
out-of-range indices leave the list unchanged here. -/
def listSwap {α : Type} (l : List α) (i j : ℕ) : List α :=
  match l[i]?, l[j]? with
  | some a, some b => (l.set i b).set j a
  | _, _ => l

/-- Go `container/heap`'s `up(h, j)` loop: sift position `j` up towards the
root, comparing by `key` (the heap's `Less` is `k` comparison).  The loop
sets `i := (j-1)/2` and stops when `i == j` or the order is respected;
natural subtraction gives `(0-1)/2 = 0`, matching Go's `(-1)/2 = 0` at the
root.  `fuel` bounds the iteration count; each step strictly decreases `j`,
so `j+1` units of fuel are always enough. -/
def heapUpAux {α K : Type} [LinearOrder K] (key : α → K) :
    ℕ → List α → ℕ → List α
  | 0, l, _ => l
  | fuel + 1, l, j =>
    match l[(j - 1) / 2]?, l[j]? with
    | some a, some b =>
      if (j - 1) / 2 = j then l
      else if key b < key a then
        heapUpAux key fuel (listSwap l ((j - 1) / 2) j) ((j - 1) / 2)
      else l
    | _, _ => l

/-- Go `container/heap`'s `up(h, j)`. -/
def heapUp {α K : Type} [LinearOrder K] (key : α → K) (l : List α) (j : ℕ) :
    List α :=
  heapUpAux key (j + 1) l j

/-- Go `container/heap`'s `down(h, i, n)` loop: sift position `i` down within
the first `n` positions.  Each step moves `i` to `2*i+1` or `2*i+2`, so
`n+1` units of fuel always suffice. -/
def downChild {α K : Type} [LinearOrder K] (key : α → K) (l : List α)
    (i n : ℕ) : ℕ :=
  match l[2 * i + 2]?, l[2 * i + 1]? with
  | some c, some b =>
    if 2 * i + 2 < n ∧ key c < key b then 2 * i + 2 else 2 * i + 1
  | _, _ => 2 * i + 1

def heapDownAux {α K : Type} [LinearOrder K] (key : α → K) :
    ℕ → List α → ℕ → ℕ → List α
  | 0, l, _, _ => l
  | fuel + 1, l, i, n =>
    if 2 * i + 1 ≥ n then l
    else
      match l[downChild key l i n]?, l[i]? with
      | some b, some a =>
        if key b < key a then
          heapDownAux key fuel (listSwap l i (downChild key l i n))
            (downChild key l i n) n
        else l
      | _, _ => l

/-- Go `container/heap`'s `down(h, i, n)`. -/
def heapDown {α K : Type} [LinearOrder K] (key : α → K) (l : List α) (i n : ℕ) :
    List α :=
  heapDownAux key (n + 1) l i n

/-- Go `container/heap.Push(h, x)` combined with the repository's
`expDecayIndividualSampleHeap.Push` method: the method reslices the backing
array with `q_[0 : n+1]`, which panics (`none`) when the slice is at its
capacity `cap`; otherwise the element is stored at the end and sifted up
from index `n = len`. -/
def heapPushGo {α K : Type} [LinearOrder K] (key : α → K) (cap : ℕ)
    (l : List α) (x : α) : Option (List α) :=
  if l.length + 1 ≤ cap then some (heapUp key (l ++ [x]) l.length)
  else none

/-- Go `container/heap.Pop(h)` combined with the repository's
`expDecayIndividualSampleHeap.Pop` method.  `container/heap.Pop` runs
`n := h.Len() - 1; h.Swap(0, n); down(h, 0, n)` and then calls the method,
which returns the last element and truncates.  On an empty heap `n = -1`
and `h.Swap(0, -1)` panics with an index out of range (`none`). -/
def heapPopGo {α K : Type} [LinearOrder K] [Inhabited α] (key : α → K)
    (l : List α) : Option (α × List α) :=
  if l.length = 0 then none
  else
    let n := l.length - 1
    let l2 := heapDown key (listSwap l 0 n) 0 n
    some (l2.getD (l2.length - 1) default, l2.take (l2.length - 1))

/-- `expDecayIndividualSample`: one stored entry, a priority key `k`
(`float64`, modelled by `ℝ`) and a value `v` (`int64`). -/
structure EDEntry where
  k : ℝ
  v : ℤ

instance : Inhabited EDEntry := ⟨⟨0, 0⟩⟩

/-- The heap's `Less` compares the `k` fields. -/
def edKeyFn (e : EDEntry) : ℝ := e.k

/-- `rescaleThreshold = 1e9 * 60 * 60` nanoseconds (one hour). -/
def rescaleThresholdNs : ℤ := 1000000000 * 60 * 60

/-- `time.Duration.Seconds()`: a nanosecond count divided by `1e9`. -/
noncomputable def durSeconds (d : ℤ) : ℝ := (d : ℝ) / 1000000000

/-- `expDecaySample`: decay constant `alpha`, reservoir capacity
`reservoirSize`, epoch `t0` and rescale deadline `t1` (nanosecond
timestamps), and the retained entries (the heap). -/
structure EDSample where
  alpha : ℝ
  reservoirSize : ℕ
  t0 : ℤ
  t1 : ℤ
  values : List EDEntry

/-- `NewExpDecaySample(reservoirSize, alpha)` constructed at time `t`. -/
def edFresh (alpha : ℝ) (reservoirSize : ℕ) (t : ℤ) : EDSample :=
  EDSample.mk alpha reservoirSize t (t + rescaleThresholdNs) []

/-- `(*expDecaySample).Clear()` at time `t`: empty the reservoir and start a
new epoch with a new rescale deadline. -/
def edClear (s : EDSample) (t : ℤ) : EDSample :=
  EDSample.mk s.alpha s.reservoirSize t (t + rescaleThresholdNs) []

/-- `(*expDecaySample).Size()`. -/
def edSize (s : EDSample) : ℕ := s.values.length

/-- `(*expDecaySample).Values()`: a freshly allocated slice holding the `v`
field of every retained entry. -/
def edValues (s : EDSample) : List ℤ := s.values.map (fun e => e.v)

/-- The rescale loop body of `(*expDecaySample).Update`: every retained
entry is pushed into a fresh heap of capacity `cap` with its key multiplied
by `math.Exp(-s.alpha * float64(s.t0.Sub(t0)))`.  `float64` applied to a
`time.Duration` yields the raw NANOSECOND count, so `dt` enters the
exponent unscaled (this is exactly what the source computes; admission keys
use `.Seconds()` instead). -/
noncomputable def edRescale (alpha : ℝ) (cap : ℕ) (dt : ℤ)
    (vals : List EDEntry) : Option (List EDEntry) :=
  vals.foldlM
    (fun acc e =>
      heapPushGo edKeyFn cap acc (EDEntry.mk (e.k * Real.exp (-(alpha * (dt : ℝ)))) e.v))
    []

/-- `(*expDecaySample).Update(v)` executed at wall-clock time `t` with the
oracle `u` standing for this call's `rand.Float64()` draw.  If the
reservoir is at capacity the minimum-priority entry is popped first (on a
zero-capacity reservoir this pops an empty heap, a panic).  The new entry's
key is `math.Exp(t.Sub(s.t0).Seconds() * s.alpha) / u`.  If `t` is strictly
after the deadline `t1` the reservoir is rebuilt by `edRescale` with the
new epoch `t0 = t`. -/
noncomputable def edUpdate (s : EDSample) (t : ℤ) (u : ℝ) (v : ℤ) :
    Option EDSample := do
  let vals0 ←
    if s.values.length = s.reservoirSize then
      (heapPopGo edKeyFn s.values).map (fun p => p.2)
    else pure s.values
  let vals1 ← heapPushGo edKeyFn s.reservoirSize vals0
    (EDEntry.mk (Real.exp (durSeconds (t - s.t0) * s.alpha) / u) v)
  if s.t1 < t then do
    let vals2 ← edRescale s.alpha s.reservoirSize (t - s.t0) vals1
    pure (EDSample.mk s.alpha s.reservoirSize t (t + rescaleThresholdNs) vals2)
  else
    pure (EDSample.mk s.alpha s.reservoirSize s.t0 s.t1 vals1)

/-- `uniformSample`: reservoir capacity, lifetime count (`int64`), and the
retained values. -/
structure USample where
  reservoirSize : ℕ
  count : ℤ
  values : List ℤ

/-- `NewUniformSample(reservoirSize)`. -/
def usFresh (reservoirSize : ℕ) : USample := USample.mk reservoirSize 0 []

/-- `(*uniformSample).Clear()`. -/
def usClear (s : USample) : USample := USample.mk s.reservoirSize 0 []

/-- `(*uniformSample).Size()`. -/
def usSize (s : USample) : ℕ := s.values.length

/-- `(*uniformSample).Values()`: a fresh copy of the retained values. -/
def usValues (s : USample) : List ℤ := s.values

/-- `(*uniformSample).Update(v)` with the oracle `r` standing for this
call's `rand.Int63n(s.count)` draw (taken after the increment, so the
runtime draws `r` uniformly from `[0, count)`; the draw only happens when
the reservoir is full).  Below capacity the value is appended; otherwise it
overwrites slot `r` when `r < len(values)` and is discarded when not. -/
def usUpdate (s : USample) (r v : ℤ) : USample :=
  if s.values.length < s.reservoirSize then
    USample.mk s.reservoirSize (s.count + 1) (s.values ++ [v])
  else if r < (s.values.length : ℤ) then
    USample.mk s.reservoirSize (s.count + 1) (s.values.set r.toNat v)
  else
    USample.mk s.reservoirSize (s.count + 1) s.values

/-- Run a stream of updates; each element pairs the offered value with the
oracle for that call's random draw. -/
def usRun (s : USample) (stream : List (ℤ × ℤ)) : USample :=
  stream.foldl (fun acc p => usUpdate acc p.2 p.1) s

/-- The dynamic kind of a value offered to the registry: the six interfaces
named in the `Register` type switch, or anything else. -/
inductive Metric : Type
  | counter : Metric
  | gauge : Metric
  | healthcheck : Metric
  | histogram : Metric
  | meterKind : Metric
  | timerKind : Metric
  | otherKind : ℕ → Metric
deriving DecidableEq

/-- Whether a value matches `case Counter, Gauge, Healthcheck, Histogram,
Meter, Timer` in `(*registry).Register`. -/
def recognizedKind : Metric → Bool
  | .counter => true
  | .gauge => true
  | .healthcheck => true
  | .histogram => true
  | .meterKind => true
  | .timerKind => true
  | .otherKind _ => false

/-- The registry's name table: Go's `map[string]interface{}` (a missing
name reads as `nil`, here `none`). -/
def RegTable : Type := String → Option Metric

/-- `(*registry).Get(name)`. -/
def regGet (r : RegTable) (name : String) : Option Metric := r name

/-- `(*registry).Register(name, i)`: the type switch stores `i` under
`name` when it matches one of the six recognized kinds and does nothing
otherwise. -/
def regRegister (r : RegTable) (name : String) (m : Metric) : RegTable :=
  if recognizedKind m then
    fun n => if n = name then some m else r n
  else r

/-- `(*registry).Unregister(name)`. -/
def regUnregister (r : RegTable) (name : String) : RegTable :=
  fun n => if n = name then none else r n

/-- `meterV`: the cached output snapshot of the meter's arbiter goroutine.
Go's zero value initializes every field to zero. -/
structure MeterV where
  count : ℤ
  rate1 : ℝ
  rate5 : ℝ
  rate15 : ℝ
  rateMean : ℝ

/-- An EWMA implementation as used by the arbiter (`ewma.go` is not part of
the sources under verification, so the arbiter is verified for every
implementation of the three-operation EWMA interface it calls). -/
structure EWMAImpl (E : Type) where
  update : E → ℤ → E
  tick : E → E
  rate : E → ℝ

/-- The state owned by `(*meter).arbiter`: the cached snapshot, the three
EWMAs and the start time `t` captured by `time.Now()`. -/
structure MeterState (E : Type) where
  mv : MeterV
  a1 : E
  a5 : E
  a15 : E
  t : ℤ

/-- One event serviced by the arbiter's `select`: a `Mark` request, a read
of the snapshot (`m.out <- mv`), or a 5-second ticker firing.  Mark and
tick events carry the wall-clock time at which `set()` runs
(`time.Since(t)`). -/
inductive MeterEvent : Type
  | mark : ℤ → ℤ → MeterEvent
  | tick : ℤ → MeterEvent
  | readSnap : MeterEvent

/-- The arbiter's `set()` closure: refresh the cached rates from the EWMAs
and recompute `rateMean = float64(1e9*count) / float64(time.Since(t))`. -/
noncomputable def meterSet {E : Type} (I : EWMAImpl E) (s : MeterState E)
    (now : ℤ) : MeterState E :=
  MeterState.mk
    (MeterV.mk s.mv.count (I.rate s.a1) (I.rate s.a5) (I.rate s.a15)
      ((1000000000 * (s.mv.count : ℝ)) / ((now - s.t : ℤ) : ℝ)))
    s.a1 s.a5 s.a15 s.t

/-- One iteration of the arbiter loop, servicing one event. -/
noncomputable def meterStep {E : Type} (I : EWMAImpl E) (s : MeterState E) :
    MeterEvent → MeterState E
  | .mark n now =>
    meterSet I
      (MeterState.mk
        (MeterV.mk (s.mv.count + n) s.mv.rate1 s.mv.rate5 s.mv.rate15 s.mv.rateMean)
        (I.update s.a1 n) (I.update s.a5 n) (I.update s.a15 n) s.t)
      now
  | .tick now =>
    meterSet I
      (MeterState.mk s.mv (I.tick s.a1) (I.tick s.a5) (I.tick s.a15) s.t)
      now
  | .readSnap => s

/-- The arbiter's initial state: `var mv meterV` (all zero), fresh EWMAs
`e1`/`e5`/`e15`, start time `t`. -/
def meterInit {E : Type} (e1 e5 e15 : E) (t : ℤ) : MeterState E :=
  MeterState.mk (MeterV.mk 0 0 0 0 0) e1 e5 e15 t

/-- Service a sequence of events from the initial state. -/
noncomputable def meterRun {E : Type} (I : EWMAImpl E) (e1 e5 e15 : E)
    (t : ℤ) (evs : List MeterEvent) : MeterState E :=
  evs.foldl (meterStep I) (meterInit e1 e5 e15 t)

/-- What `(*meter).Count()` returns: the `count` field of the snapshot the
arbiter sends on `m.out`. -/
def meterCount {E : Type} (s : MeterState E) : ℤ := s.mv.count

/-- The total marked by a sequence of events. -/
def marksSum : List MeterEvent → ℤ
  | [] => 0
  | .mark n _ :: evs => n + marksSum evs
  | .tick _ :: evs => marksSum evs
  | .readSnap :: evs => marksSum evs

/-- A `timer` observed at the boundary with its two collaborators: the
sequence of values fed to `t.h.Update` and the sequence of arguments passed
to `t.m.Mark`.  The `timer` struct holds nothing but the two references. -/
structure TimerLog where
  hValues : List ℤ
  mMarks : List ℤ

/-- `(*timer).Update(d)`: `t.h.Update(int64(d)); t.m.Mark(1)` where `d` is
a duration in nanoseconds. -/
def timerUpdate (t : TimerLog) (d : ℤ) : TimerLog :=
  TimerLog.mk (t.hValues ++ [d]) (t.mMarks ++ [1])

/-- `(*timer).UpdateSince(ts)`: `t.h.Update(int64(time.Since(ts)));
t.m.Mark(1)`, with `now` the current wall-clock time. -/
def timerUpdateSince (t : TimerLog) (now ts : ℤ) : TimerLog :=
  TimerLog.mk (t.hValues ++ [now - ts]) (t.mMarks ++ [1])

/-- A store of allocated `[]int64` backing arrays; a slice is an index into
the store, and `make` allocates a fresh cell.  Used to express that
`Values()` returns a copy that later mutations do not touch. -/
structure Store where
  cells : List (List ℤ)

/-- Read a cell. -/
def storeRead (σ : Store) (i : ℕ) : List ℤ := σ.cells.getD i []

/-- Overwrite a cell in place. -/
def storeWrite (σ : Store) (i : ℕ) (xs : List ℤ) : Store :=
  Store.mk (σ.cells.set i xs)

/-- Allocate a fresh cell holding `xs`; returns the new store and the new
cell's reference. -/
def storeAlloc (σ : Store) (xs : List ℤ) : Store × ℕ :=
  (Store.mk (σ.cells ++ [xs]), σ.cells.length)

/-- `uniformSample` with its `values` slice held in the store. -/
structure USampleS where
  reservoirSize : ℕ
  count : ℤ
  ref : ℕ

/-- `(*uniformSample).Values()` in the store model: `make` a fresh slice of
the current length, `copy` the retained values into it, and return it. -/
def usValuesS (σ : Store) (s : USampleS) : Store × USampleS × ℕ :=
  let p := storeAlloc σ (storeRead σ s.ref)
  (p.1, s, p.2)

/-- `(*uniformSample).Update(v)` in the store model (oracle `r` as in
`usUpdate`); the write mutates the sample's own backing array. -/
def usUpdateS (σ : Store) (s : USampleS) (r v : ℤ) : Store × USampleS :=
  let vals := storeRead σ s.ref
  if vals.length < s.reservoirSize then
    (storeWrite σ s.ref (vals ++ [v]),
     USampleS.mk s.reservoirSize (s.count + 1) s.ref)
  else if r < (vals.length : ℤ) then
    (storeWrite σ s.ref (vals.set r.toNat v),
     USampleS.mk s.reservoirSize (s.count + 1) s.ref)
  else (σ, USampleS.mk s.reservoirSize (s.count + 1) s.ref)

/-- `(*uniformSample).Clear()` in the store model: `make` allocates a fresh
empty backing array. -/
def usClearS (σ : Store) (s : USampleS) : Store × USampleS :=
  let p := storeAlloc σ []
  (p.1, USampleS.mk s.reservoirSize 0 p.2)

/-- A mutating operation on a uniform sample. -/
inductive USOp : Type
  | update : ℤ → ℤ → USOp
  | clear : USOp

/-- Apply one mutating operation. -/
def usApplyS (p : Store × USampleS) : USOp → Store × USampleS
  | .update r v => usUpdateS p.1 p.2 r v
  | .clear => usClearS p.1 p.2

/-- Apply a sequence of mutating operations. -/
def usRunS (p : Store × USampleS) (ops : List USOp) : Store × USampleS :=
  ops.foldl usApplyS p

/-- `(*expDecaySample).Values()` in the store model: the returned `[]int64`
is freshly `make`d and filled from the entries' `v` fields (the entry heap
itself is a separate `[]expDecayIndividualSample` allocation that shares no
storage with any returned slice). -/
def edValuesS (σ : Store) (s : EDSample) : Store × EDSample × ℕ :=
  let p := storeAlloc σ (s.values.map (fun e => e.v))
  (p.1, s, p.2)

/-- A mutating operation on an exponentially-decaying sample. -/
inductive EDOp : Type
  | update : ℤ → ℝ → ℤ → EDOp
  | clear : ℤ → EDOp

/-- Apply one mutating operation; neither touches any `[]int64` snapshot
cell (updates and clears write only the sample's own entry heap). -/
noncomputable def edApplyS (p : Store × EDSample) : EDOp → Option (Store × EDSample)
  | .update t u v => (edUpdate p.2 t u v).map (fun s2 => (p.1, s2))
  | .clear t => some (p.1, edClear p.2 t)

/-- Apply a sequence of mutating operations (`none` as soon as one
panics). -/
noncomputable def edRunS (p : Store × EDSample) (ops : List EDOp) :
    Option (Store × EDSample) :=
  ops.foldlM edApplyS p

/-! Helper lemmas. -/

theorem cons_set_perm {α : Type} :
    ∀ (t : List α) (m : ℕ) (a b : α), t[m]? = some b →
      (b :: t.set m a).Perm (a :: t)
  | [], m, _, _, h => by simp at h
  | y :: t2, 0, a, b, h => by
      simp only [List.getElem?_cons_zero, Option.some.injEq] at h
      subst h
      exact List.Perm.swap a y t2
  | y :: t2, m + 1, a, b, h => by
      simp only [List.getElem?_cons_succ] at h
      exact (List.Perm.swap y b (t2.set m a)).trans
        ((List.Perm.cons y (cons_set_perm t2 m a b h)).trans
          (List.Perm.swap a y t2))

theorem set_set_perm {α : Type} :
    ∀ (l : List α) (i j : ℕ) (a b : α), l[i]? = some a →
      l[j]? = some b → ((l.set i b).set j a).Perm l
  | [], _, _, _, _, h1, _ => by simp at h1
  | x :: t, 0, 0, a, b, h1, h2 => by
      simp only [List.getElem?_cons_zero, Option.some.injEq] at h1 h2
      subst h1; subst h2
      exact List.Perm.refl _
  | x :: t, 0, j + 1, a, b, h1, h2 => by
      simp only [List.getElem?_cons_zero, Option.some.injEq] at h1
      simp only [List.getElem?_cons_succ] at h2
      subst h1
      exact cons_set_perm t j x b h2
  | x :: t, i + 1, 0, a, b, h1, h2 => by
      simp only [List.getElem?_cons_zero, Option.some.injEq] at h2
      simp only [List.getElem?_cons_succ] at h1
      subst h2
      exact cons_set_perm t i x a h1
  | x :: t, i + 1, j + 1, a, b, h1, h2 => by
      simp only [List.getElem?_cons_succ] at h1 h2
      exact List.Perm.cons x (set_set_perm t i j a b h1 h2)

theorem listSwap_perm {α : Type} (l : List α) (i j : ℕ) :
    (listSwap l i j).Perm l := by
  unfold listSwap
  cases h1 : l[i]? with
  | none => cases l[j]? <;> exact List.Perm.refl l
  | some a =>
    cases h2 : l[j]? with
    | none => exact List.Perm.refl l
    | some b => exact set_set_perm l i j a b h1 h2

theorem heapUpAux_perm {α K : Type} [LinearOrder K] (key : α → K) :
    ∀ (fuel : ℕ) (l : List α) (j : ℕ), (heapUpAux key fuel l j).Perm l
  | 0, l, _ => List.Perm.refl l
  | fuel + 1, l, j => by
      unfold heapUpAux
      cases h1 : l[(j - 1) / 2]? with
      | none => cases l[j]? <;> exact List.Perm.refl l
      | some a =>
        cases h2 : l[j]? with
        | none => exact List.Perm.refl l
        | some b =>
          show (if (j - 1) / 2 = j then l
            else if key b < key a then
              heapUpAux key fuel (listSwap l ((j - 1) / 2) j) ((j - 1) / 2)
            else l).Perm l
          by_cases hij : (j - 1) / 2 = j
          · rw [if_pos hij]
          · rw [if_neg hij]
            by_cases hlt : key b < key a
            · rw [if_pos hlt]
              exact (heapUpAux_perm key fuel _ _).trans
                (listSwap_perm l ((j - 1) / 2) j)
            · rw [if_neg hlt]

theorem heapUp_perm {α K : Type} [LinearOrder K] (key : α → K)
    (l : List α) (j : ℕ) : (heapUp key l j).Perm l :=
  heapUpAux_perm key (j + 1) l j

theorem heapPushGo_perm {α K : Type} [LinearOrder K] (key : α → K)
    {cap : ℕ} {l l2 : List α} {x : α}
    (h : heapPushGo key cap l x = some l2) : l2.Perm (l ++ [x]) := by
  unfold heapPushGo at h
  by_cases hlen : l.length + 1 ≤ cap
  · simp only [hlen, if_true, Option.some.injEq] at h
    exact h ▸ heapUp_perm key (l ++ [x]) l.length
  · simp [hlen] at h

theorem heapPushGo_some {α K : Type} [LinearOrder K] (key : α → K)
    (cap : ℕ) (l : List α) (x : α) (h : l.length + 1 ≤ cap) :
    heapPushGo key cap l x = some (heapUp key (l ++ [x]) l.length) := by
  simp [heapPushGo, h]

theorem edRescale_fold (alpha : ℝ) (cap : ℕ) (dt : ℤ) :
    ∀ (vals acc : List EDEntry), acc.length + vals.length ≤ cap →
      ∃ out,
        vals.foldlM
          (fun acc2 e => heapPushGo edKeyFn cap acc2
            (EDEntry.mk (e.k * Real.exp (-(alpha * (dt : ℝ)))) e.v)) acc =
          some out ∧
        out.Perm (acc ++ vals.map (fun e =>
          EDEntry.mk (e.k * Real.exp (-(alpha * (dt : ℝ)))) e.v))
  | [], acc, _ => ⟨acc, by simp, by simp⟩
  | e :: vs, acc, hfit => by
      have hpush := heapPushGo_some edKeyFn cap acc
        (EDEntry.mk (e.k * Real.exp (-(alpha * (dt : ℝ)))) e.v)
        (by simp at hfit; omega)
      have hperm : (heapUp edKeyFn
          (acc ++ [EDEntry.mk (e.k * Real.exp (-(alpha * (dt : ℝ)))) e.v])
          acc.length).Perm
          (acc ++ [EDEntry.mk (e.k * Real.exp (-(alpha * (dt : ℝ)))) e.v]) :=
        heapUp_perm edKeyFn _ _
      have hlen2 : (heapUp edKeyFn
          (acc ++ [EDEntry.mk (e.k * Real.exp (-(alpha * (dt : ℝ)))) e.v])
          acc.length).length + vs.length ≤ cap := by
        rw [hperm.length_eq]
        simp at hfit ⊢
        omega
      obtain ⟨out, hfold, hout⟩ := edRescale_fold alpha cap dt vs _ hlen2
      refine ⟨out, ?_, ?_⟩
      · rw [List.foldlM_cons, hpush]
        simpa using hfold
      · refine hout.trans ?_
        refine (hperm.append_right _).trans ?_
        simp

theorem storeRead_write_ne (σ : Store) (jdx i : ℕ) (xs : List ℤ)
    (h : i ≠ jdx) : storeRead (storeWrite σ jdx xs) i = storeRead σ i := by
  unfold storeRead storeWrite
  rw [List.getD_eq_getElem?_getD, List.getD_eq_getElem?_getD,
    List.getElem?_set_ne (Ne.symm h)]

theorem storeRead_alloc_old (σ : Store) (xs : List ℤ) (i : ℕ)
    (h : i < σ.cells.length) :
    storeRead (storeAlloc σ xs).1 i = storeRead σ i := by
  unfold storeRead storeAlloc
  rw [List.getD_eq_getElem?_getD, List.getD_eq_getElem?_getD,
    List.getElem?_append_left h]

theorem storeRead_alloc_new (σ : Store) (xs : List ℤ) :
    storeRead (storeAlloc σ xs).1 (storeAlloc σ xs).2 = xs := by
  unfold storeRead storeAlloc
  rw [List.getD_eq_getElem?_getD, List.getElem?_concat_length]
  rfl

theorem storeWrite_length (σ : Store) (jdx : ℕ) (xs : List ℤ) :
    (storeWrite σ jdx xs).cells.length = σ.cells.length := by
  simp [storeWrite]

theorem storeAlloc_length (σ : Store) (xs : List ℤ) :
    (storeAlloc σ xs).1.cells.length = σ.cells.length + 1 := by
  simp [storeAlloc]

theorem usApplyS_frame (p : Store × USampleS) (op : USOp) (i : ℕ)
    (hi : i < p.1.cells.length) (hne : i ≠ p.2.ref)
    (href : p.2.ref < p.1.cells.length) :
    storeRead (usApplyS p op).1 i = storeRead p.1 i ∧
    i < (usApplyS p op).1.cells.length ∧
    i ≠ (usApplyS p op).2.ref ∧
    (usApplyS p op).2.ref < (usApplyS p op).1.cells.length := by
  cases op with
  | update r v =>
    show storeRead (usUpdateS p.1 p.2 r v).1 i = _ ∧
      i < (usUpdateS p.1 p.2 r v).1.cells.length ∧
      i ≠ (usUpdateS p.1 p.2 r v).2.ref ∧
      (usUpdateS p.1 p.2 r v).2.ref < (usUpdateS p.1 p.2 r v).1.cells.length
    unfold usUpdateS
    by_cases h1 : (storeRead p.1 p.2.ref).length < p.2.reservoirSize
    · simp only [h1, if_true]
      exact ⟨storeRead_write_ne p.1 p.2.ref i _ hne,
        by rw [storeWrite_length]; exact hi, hne,
        by rw [storeWrite_length]; exact href⟩
    · simp only [h1, if_false]
      by_cases h2 : r < ((storeRead p.1 p.2.ref).length : ℤ)
      · simp only [h2, if_true]
        exact ⟨storeRead_write_ne p.1 p.2.ref i _ hne,
          by rw [storeWrite_length]; exact hi, hne,
          by rw [storeWrite_length]; exact href⟩
      · simp only [h2, if_false]
        exact ⟨trivial, hi, hne, href⟩
  | clear =>
    show storeRead (usClearS p.1 p.2).1 i = _ ∧
      i < (usClearS p.1 p.2).1.cells.length ∧
      i ≠ (usClearS p.1 p.2).2.ref ∧
      (usClearS p.1 p.2).2.ref < (usClearS p.1 p.2).1.cells.length
    unfold usClearS
    refine ⟨storeRead_alloc_old p.1 [] i hi, ?_, ?_, ?_⟩
    · rw [storeAlloc_length]; omega
    · show i ≠ (storeAlloc p.1 []).2
      unfold storeAlloc
      omega
    · show (storeAlloc p.1 []).2 < (storeAlloc p.1 []).1.cells.length
      rw [storeAlloc_length]
      unfold storeAlloc
      omega

theorem usRunS_frame :
    ∀ (ops : List USOp) (p : Store × USampleS) (i : ℕ),
      i < p.1.cells.length → i ≠ p.2.ref → p.2.ref < p.1.cells.length →
      storeRead (usRunS p ops).1 i = storeRead p.1 i
  | [], _, _, _, _, _ => rfl
  | op :: ops, p, i, hi, hne, href => by
      obtain ⟨h1, h2, h3, h4⟩ := usApplyS_frame p op i hi hne href
      exact (usRunS_frame ops (usApplyS p op) i h2 h3 h4).trans h1

theorem edApplyS_store (p : Store × EDSample) (op : EDOp)
    (q : Store × EDSample) (h : edApplyS p op = some q) : q.1 = p.1 := by
  cases op with
  | update t u v =>
    have h2 : Option.map (fun s2 => (p.1, s2)) (edUpdate p.2 t u v) = some q := h
    cases hu : edUpdate p.2 t u v with
    | none => rw [hu] at h2; simp at h2
    | some s2 =>
      rw [hu] at h2
      simp only [Option.map_some', Option.some.injEq] at h2
      rw [← h2]
  | clear t =>
    have h2 : some (p.1, edClear p.2 t) = some q := h
    simp only [Option.some.injEq] at h2
    rw [← h2]

theorem edRunS_store :
    ∀ (ops : List EDOp) (p q : Store × EDSample),
      edRunS p ops = some q → q.1 = p.1
  | [], p, q, h => by
      have h2 : some p = some q := h
      simp only [Option.some.injEq] at h2
      rw [h2]
  | op :: ops, p, q, h => by
      have h2 : (edApplyS p op >>= fun p2 => edRunS p2 ops) = some q := h
      cases ha : edApplyS p op with
      | none =>
        rw [ha] at h2
        exact Option.noConfusion h2
      | some p2 =>
        rw [ha] at h2
        have h3 : edRunS p2 ops = some q := h2
        exact (edRunS_store ops p2 q h3).trans (edApplyS_store p op p2 ha)

/-! Claim theorems. -/

/-- Claim C1.  With capacity 0, the exponentially-decaying sample's
`Update` panics on its very first call: the reservoir is (vacuously) full,
so `heap.Pop` runs on the empty heap and executes `h.Swap(0, -1)`, an index
out of range.  The spec requires all Sample operations to be non-failing
with capacity 0 merely keeping the reservoir empty, so this is a defect of
the code, exhibited here on the concrete fresh sample
`NewExpDecaySample(0, 1)` updated with value 7 at time 5ns. -/
theorem expDecay_update_zero_capacity_panics :
    edUpdate (edFresh 1 0 0) 5 1 7 = none := rfl

/-- Claim C3.  The rescale step of `(*expDecaySample).Update` (which
rebuilds the reservoir via `edRescale` whenever the deadline has passed)
drops no entries and changes no relative priority ordering: whenever the
entries fit the capacity (which holds at the point `Update` rescales), the
rebuilt heap is a permutation of the original entries with every key
multiplied by the one positive constant `exp(-alpha·Δ)`, so the multiset of
(key-rank, value) pairs is preserved — pairwise strict comparisons and ties
between any two retained keys are exactly as before. -/
theorem edRescale_preserves_entries_and_order (alpha : ℝ) (cap : ℕ)
    (dt : ℤ) (vals : List EDEntry) (hfit : vals.length ≤ cap) :
    ∃ vals2,
      edRescale alpha cap dt vals = some vals2 ∧
      vals2.Perm (vals.map (fun e =>
        EDEntry.mk (e.k * Real.exp (-(alpha * (dt : ℝ)))) e.v)) ∧
      ∀ e1 e2 : EDEntry, e1 ∈ vals → e2 ∈ vals →
        (e1.k * Real.exp (-(alpha * (dt : ℝ))) <
            e2.k * Real.exp (-(alpha * (dt : ℝ))) ↔ e1.k < e2.k) ∧
        (e1.k * Real.exp (-(alpha * (dt : ℝ))) =
            e2.k * Real.exp (-(alpha * (dt : ℝ))) ↔ e1.k = e2.k) := by
  obtain ⟨out, hfold, hperm⟩ :=
    edRescale_fold alpha cap dt vals [] (by simpa using hfit)
  refine ⟨out, ?_, ?_, ?_⟩
  · exact hfold
  · simpa using hperm
  · intro e1 e2 _ _
    have hc : (0 : ℝ) < Real.exp (-(alpha * (dt : ℝ))) := Real.exp_pos _
    constructor
    · exact mul_lt_mul_right hc
    · constructor
      · intro h
        exact mul_right_cancel₀ (ne_of_gt hc) h
      · intro h
        rw [h]

/-- Witness for C3 on the one-entry reservoir `[(k = 2, v = 5)]` with
capacity 1, `alpha = 0`, `Δ = 0`. -/
theorem edRescale_preserves_entries_and_order_witness :
    ([EDEntry.mk 2 5] : List EDEntry).length ≤ 1 ∧
    ∃ vals2,
      edRescale 0 1 0 [EDEntry.mk 2 5] = some vals2 ∧
      vals2.Perm ([EDEntry.mk 2 5].map (fun e =>
        EDEntry.mk (e.k * Real.exp (-((0 : ℝ) * ((0 : ℤ) : ℝ)))) e.v)) ∧
      ∀ e1 e2 : EDEntry, e1 ∈ [EDEntry.mk 2 5] → e2 ∈ [EDEntry.mk 2 5] →
        (e1.k * Real.exp (-((0 : ℝ) * ((0 : ℤ) : ℝ))) <
            e2.k * Real.exp (-((0 : ℝ) * ((0 : ℤ) : ℝ))) ↔ e1.k < e2.k) ∧
        (e1.k * Real.exp (-((0 : ℝ) * ((0 : ℤ) : ℝ))) =
            e2.k * Real.exp (-((0 : ℝ) * ((0 : ℤ) : ℝ))) ↔ e1.k = e2.k) :=
  ⟨by decide, edRescale_preserves_entries_and_order 0 1 0 [EDEntry.mk 2 5]
    (by decide)⟩

/-- Claim C2.  Admission keys are computed with the elapsed time in
SECONDS (`t.Sub(s.t0).Seconds()`), but the rescale multiplies each key by
`math.Exp(-s.alpha * float64(s.t0.Sub(t0)))`, where the `float64`
conversion of a `time.Duration` yields NANOSECONDS.  Concretely: a fresh
sample with `alpha = 1`, capacity 2, epoch 0 is updated at
`t = 4·10¹² ns = 4000 s` with `u = 1`, which forces a rescale to the new
epoch `t0' = t`.  The entry is admitted with key `exp(4000)` and the
rescale leaves it with key `exp(4000)·exp(-4·10¹²)`, whereas the key the
entry would be assigned relative to the new epoch — equivalently the
claim's seconds-based factor `exp(4000)·exp(-4000)` — is
`exp(0·1)/1 = 1`.  The two differ, refuting the claimed unit agreement. -/
theorem edUpdate_rescale_unit_mismatch :
    edUpdate (EDSample.mk 1 2 0 rescaleThresholdNs []) 4000000000000 1 7 =
      some (EDSample.mk 1 2 4000000000000
        (4000000000000 + rescaleThresholdNs)
        [EDEntry.mk (Real.exp 4000 * Real.exp (-(4000000000000 : ℝ))) 7]) ∧
    Real.exp 4000 * Real.exp (-(4000000000000 : ℝ)) ≠
      Real.exp (durSeconds (4000000000000 - 4000000000000) * 1) / 1 := by
  constructor
  · unfold edUpdate
    norm_num [heapPushGo, heapUp, heapUpAux, heapPopGo, edRescale,
      durSeconds, rescaleThresholdNs, edKeyFn, listSwap]
  · have h1 : Real.exp 4000 * Real.exp (-(4000000000000 : ℝ)) =
        Real.exp (4000 + -4000000000000) := (Real.exp_add _ _).symm
    have h2 : Real.exp (durSeconds (4000000000000 - 4000000000000) * 1) / 1 =
        Real.exp 0 := by
      norm_num [durSeconds]
    rw [h1, h2]
    intro h
    have := Real.exp_eq_exp.mp h
    norm_num at this

/-- Claim C4.  Streaming `n` values through a fresh uniform sample of
capacity `k`: when `n ≤ k` the size is exactly `n` and the retained values
are exactly the input stream (as a multiset); when `n > k` the size is
exactly `k`.  Each stream element pairs the offered value with the oracle
for that call's random draw. -/
theorem uniformSample_stream_size_values (k : ℕ) (stream : List (ℤ × ℤ)) :
    (stream.length ≤ k →
      usSize (usRun (usFresh k) stream) = stream.length ∧
      ((usValues (usRun (usFresh k) stream) : List ℤ) : Multiset ℤ) =
        ((stream.map Prod.fst : List ℤ) : Multiset ℤ)) ∧
    (k < stream.length → usSize (usRun (usFresh k) stream) = k) := by
  have hgen : ∀ (stream : List (ℤ × ℤ)) (s : USample),
      s.values.length + stream.length ≤ s.reservoirSize →
      (usRun s stream).values = s.values ++ stream.map Prod.fst := by
    intro stream
    induction stream with
    | nil => intro s _; simp [usRun]
    | cons p rest ih =>
      intro s hs
      have hlt : s.values.length < s.reservoirSize := by
        simp at hs; omega
      have hstep : usUpdate s p.2 p.1 =
          USample.mk s.reservoirSize (s.count + 1) (s.values ++ [p.1]) := by
        simp [usUpdate, hlt]
      have : usRun s (p :: rest) = usRun (usUpdate s p.2 p.1) rest := by
        simp [usRun]
      rw [this, hstep, ih]
      · simp
      · simp at hs ⊢; omega
  have hlen : ∀ (stream : List (ℤ × ℤ)) (s : USample),
      s.values.length ≤ s.reservoirSize →
      (usRun s stream).values.length =
        min (s.values.length + stream.length) s.reservoirSize := by
    intro stream
    induction stream with
    | nil => intro s hs; simp [usRun]; omega
    | cons p rest ih =>
      intro s hs
      have hrun : usRun s (p :: rest) = usRun (usUpdate s p.2 p.1) rest := by
        simp [usRun]
      by_cases hlt : s.values.length < s.reservoirSize
      · have hstep : usUpdate s p.2 p.1 =
            USample.mk s.reservoirSize (s.count + 1) (s.values ++ [p.1]) := by
          simp [usUpdate, hlt]
        rw [hrun, hstep, ih]
        · simp; omega
        · simp; omega
      · have hsz : ∀ r v, ((usUpdate s r v).values.length = s.values.length ∧
            (usUpdate s r v).reservoirSize = s.reservoirSize) := by
          intro r v
          unfold usUpdate
          simp only [hlt, if_false]
          by_cases hr : r < (s.values.length : ℤ) <;> simp [hr]
        rw [hrun, ih]
        · rcases hsz p.2 p.1 with ⟨h1, h2⟩
          rw [h1, h2]
          simp at hlt ⊢
          omega
        · rcases hsz p.2 p.1 with ⟨h1, h2⟩
          rw [h1, h2]; omega
  have hl : (usRun (usFresh k) stream).values.length = min stream.length k := by
    have := hlen stream (usFresh k) (by simp [usFresh])
    simpa [usFresh] using this
  constructor
  · intro hle
    constructor
    · simp only [usSize, hl]
      omega
    · have hg : (usRun (usFresh k) stream).values = stream.map Prod.fst := by
        have := hgen stream (usFresh k) (by simp [usFresh]; omega)
        simpa [usFresh] using this
      simp only [usValues, hg]
  · intro hgt
    simp only [usSize, hl]
    omega

/-- Witness for C4 at capacity 2 with streams of length 2 and 3. -/
theorem uniformSample_stream_size_values_witness :
    ((2 : ℕ) ≤ 2 ∧
      usSize (usRun (usFresh 2) [(5, 0), (6, 0)]) = 2 ∧
      ((usValues (usRun (usFresh 2) [(5, 0), (6, 0)]) : List ℤ) : Multiset ℤ) =
        (([5, 6] : List ℤ) : Multiset ℤ)) ∧
    ((1 : ℕ) < 3 ∧ usSize (usRun (usFresh 1) [(7, 0), (8, 0), (9, 1)]) = 1) :=
  ⟨⟨by decide,
    ((uniformSample_stream_size_values 2 [(5, 0), (6, 0)]).1 (by decide)).1,
    ((uniformSample_stream_size_values 2 [(5, 0), (6, 0)]).1 (by decide)).2⟩,
   ⟨by decide,
    (uniformSample_stream_size_values 1 [(7, 0), (8, 0), (9, 1)]).2 (by decide)⟩⟩

/-- Claim C5.  A single `Update(v)` on a uniform sample whose occupancy
does not exceed its capacity (an invariant of every reachable state)
follows Algorithm R: the lifetime count is incremented; below capacity the
value is appended; at capacity, with `r` the random draw from `[0, n)`,
slot `r` is overwritten exactly when `r < k` and the reservoir is left
unchanged when `r ≥ k`. -/
theorem uniformSample_update_algorithmR (s : USample) (r v : ℤ)
    (hinv : s.values.length ≤ s.reservoirSize) (hr : 0 ≤ r) :
    (usUpdate s r v).count = s.count + 1 ∧
    (s.values.length < s.reservoirSize →
      (usUpdate s r v).values = s.values ++ [v]) ∧
    (¬ s.values.length < s.reservoirSize →
      (r < (s.reservoirSize : ℤ) →
        (usUpdate s r v).values = s.values.set r.toNat v) ∧
      ((s.reservoirSize : ℤ) ≤ r → (usUpdate s r v).values = s.values)) := by
  refine ⟨?_, ?_, ?_⟩
  · unfold usUpdate
    by_cases h1 : s.values.length < s.reservoirSize
    · simp [h1]
    · by_cases h2 : r < (s.values.length : ℤ) <;> simp [h1, h2]
  · intro h1; simp [usUpdate, h1]
  · intro h1
    have hfull : s.values.length = s.reservoirSize := by omega
    constructor
    · intro h2
      have : r < (s.values.length : ℤ) := by rw [hfull]; exact h2
      simp [usUpdate, h1, this]
    · intro h2
      have : ¬ r < (s.values.length : ℤ) := by rw [hfull]; omega
      simp [usUpdate, h1, this]

/-- Witness for C5: a sample at capacity 2 holding `[10, 11]`, updated with
`v = 9` and draw `r = 1` (overwrite), checked via the theorem at that
concrete input. -/
theorem uniformSample_update_algorithmR_witness :
    (USample.mk 2 5 [10, 11]).values.length ≤ 2 ∧ (0 : ℤ) ≤ 1 ∧
    (usUpdate (USample.mk 2 5 [10, 11]) 1 9).count = 6 ∧
    (¬ (USample.mk 2 5 [10, 11]).values.length < 2 →
      ((1 : ℤ) < ((2 : ℕ) : ℤ) →
        (usUpdate (USample.mk 2 5 [10, 11]) 1 9).values =
          [10, 11].set (1 : ℤ).toNat 9)) :=
  ⟨by decide, by decide,
   (uniformSample_update_algorithmR (USample.mk 2 5 [10, 11]) 1 9
      (by decide) (by decide)).1,
   fun h1 => ((uniformSample_update_algorithmR (USample.mk 2 5 [10, 11]) 1 9
      (by decide) (by decide)).2.2 h1).1⟩

/-- Claim C6.  `Register(name, metric)` stores the metric exactly when its
dynamic kind is one of the six recognized kinds; for any other kind the
name table is completely unchanged, so a `Get` afterwards returns whatever
the table previously held (in particular `nil` for never-registered
names). -/
theorem registry_register_kind_gate (r : RegTable) (name : String)
    (m : Metric) :
    (recognizedKind m = true →
      regGet (regRegister r name m) name = some m ∧
      (∀ n, n ≠ name → regGet (regRegister r name m) n = regGet r n)) ∧
    (recognizedKind m = false → regRegister r name m = r) := by
  constructor
  · intro hrec
    constructor
    · simp [regGet, regRegister, hrec]
    · intro n hn
      simp [regGet, regRegister, hrec, hn]
  · intro hrec
    simp [regRegister, hrec]

/-- Witness for C6: a recognized registration is stored and an unrecognized
one leaves the table untouched, at concrete inputs. -/
theorem registry_register_kind_gate_witness :
    (recognizedKind Metric.counter = true ∧
      regGet (regRegister (fun _ => none) "a" Metric.counter) "a" =
        some Metric.counter) ∧
    (recognizedKind (Metric.otherKind 0) = false ∧
      regRegister (fun _ => none) "a" (Metric.otherKind 0) = fun _ => none) :=
  ⟨⟨by decide,
    ((registry_register_kind_gate (fun _ => none) "a" Metric.counter).1
      (by decide)).1⟩,
   ⟨by decide,
    (registry_register_kind_gate (fun _ => none) "a" (Metric.otherKind 0)).2
      (by decide)⟩⟩

/-- Claim C10.  Registering a recognized metric under a name that is
already present silently replaces the stored metric: `Get(name)` afterwards
returns the new metric, every other name is untouched, and `Register`
signals nothing (its Go signature returns no value at all). -/
theorem registry_reregister_replaces (r : RegTable) (name : String)
    (m0 m : Metric) (hprev : regGet r name = some m0)
    (hrec : recognizedKind m = true) :
    regGet (regRegister r name m) name = some m ∧
    (∀ n, n ≠ name → regGet (regRegister r name m) n = regGet r n) := by
  constructor
  · simp [regGet, regRegister, hrec]
  · intro n hn
    simp [regGet, regRegister, hrec, hn]

/-- Witness for C10: re-registering the name that holds a counter with a
gauge makes `Get` return the gauge. -/
theorem registry_reregister_replaces_witness :
    regGet (fun n => if n = "a" then some Metric.counter else none) "a" =
      some Metric.counter ∧
    recognizedKind Metric.gauge = true ∧
    regGet
      (regRegister (fun n => if n = "a" then some Metric.counter else none)
        "a" Metric.gauge) "a" = some Metric.gauge :=
  ⟨by simp [regGet], by decide,
   (registry_reregister_replaces
      (fun n => if n = "a" then some Metric.counter else none) "a"
      Metric.counter Metric.gauge (by simp [regGet]) (by decide)).1⟩

/-- Claim C7.  A fresh meter's snapshot (the arbiter's zero-valued
`meterV`, served before any event) has count 0 and all four rates 0; and
after any sequence of serviced events the snapshot's count is exactly the
sum of the marked amounts — in particular `Mark(3)` then `Count()` gives 3.
Stated for every EWMA implementation the arbiter could be linked with. -/
theorem meter_count_and_cold_start {E : Type} (I : EWMAImpl E)
    (e1 e5 e15 : E) (t : ℤ) (evs : List MeterEvent) :
    (meterCount (meterInit e1 e5 e15 t : MeterState E) = 0 ∧
      (meterInit e1 e5 e15 t : MeterState E).mv.rate1 = 0 ∧
      (meterInit e1 e5 e15 t : MeterState E).mv.rate5 = 0 ∧
      (meterInit e1 e5 e15 t : MeterState E).mv.rate15 = 0 ∧
      (meterInit e1 e5 e15 t : MeterState E).mv.rateMean = 0) ∧
    meterCount (meterRun I e1 e5 e15 t evs) = marksSum evs := by
  have hstep : ∀ (s : MeterState E) (ev : MeterEvent),
      meterCount (meterStep I s ev) =
        meterCount s + (match ev with
          | .mark n _ => n
          | .tick _ => 0
          | .readSnap => 0) := by
    intro s ev
    cases ev <;> simp [meterStep, meterSet, meterCount]
  have hrun : ∀ (evs : List MeterEvent) (s : MeterState E),
      meterCount (evs.foldl (meterStep I) s) = meterCount s + marksSum evs := by
    intro evs
    induction evs with
    | nil => intro s; simp [marksSum]
    | cons ev rest ih =>
      intro s
      rw [List.foldl_cons, ih, hstep]
      cases ev <;> simp [marksSum] <;> ring
  refine ⟨⟨rfl, rfl, rfl, rfl, rfl⟩, ?_⟩
  rw [meterRun, hrun]
  simp [meterCount, meterInit]

/-- Claim C8.  `Update(d)` appends exactly the duration `d` (one value) to
the Histogram's input sequence and exactly one `Mark(1)` to the Meter's,
and `UpdateSince(ts)` does the same with the elapsed time `now - ts`; the
timer holds no state besides these two collaborators, so nothing else can
change. -/
theorem timer_update_feeds_histogram_and_meter (t : TimerLog) (d now ts : ℤ) :
    (timerUpdate t d).hValues = t.hValues ++ [d] ∧
    (timerUpdate t d).mMarks = t.mMarks ++ [1] ∧
    (timerUpdateSince t now ts).hValues = t.hValues ++ [now - ts] ∧
    (timerUpdateSince t now ts).mMarks = t.mMarks ++ [1] ∧
    timerUpdateSince t now ts = timerUpdate t (now - ts) :=
  ⟨rfl, rfl, rfl, rfl, rfl⟩

/-- Claim C9.  For both sample variants, `Values()` is a pure read
returning a fresh copy.  In the store model (backing arrays live in a
store, a slice is a cell reference): calling `Values` leaves the sample
record unchanged and leaves every existing cell unchanged, the returned
cell holds exactly the currently retained values, the returned cell is not
the sample's own backing cell, and after any later sequence of `Update` /
`Clear` operations the snapshot cell still holds what it held when it was
returned.  (For the exponentially-decaying sample the mutating operations
write only the sample's own entry heap, a different allocation, so the
store of `[]int64` snapshots passes through every operation untouched;
`qe` is the outcome of any such operation sequence that completes without
panicking.) -/
theorem sample_values_snapshot_frame
    (σ : Store) (s : USampleS) (ops : List USOp) (i : ℕ)
    (σe : Store) (se : EDSample) (eops : List EDOp) (qe : Store × EDSample)
    (ie : ℕ)
    (href : s.ref < σ.cells.length) (hi : i < σ.cells.length)
    (herun : edRunS ((edValuesS σe se).1, (edValuesS σe se).2.1) eops =
      some qe)
    (hie : ie < σe.cells.length) :
    ((usValuesS σ s).2.1 = s ∧
     storeRead (usValuesS σ s).1 (usValuesS σ s).2.2 = storeRead σ s.ref ∧
     storeRead (usValuesS σ s).1 i = storeRead σ i ∧
     (usValuesS σ s).2.2 ≠ s.ref ∧
     storeRead (usRunS ((usValuesS σ s).1, (usValuesS σ s).2.1) ops).1
       (usValuesS σ s).2.2 = storeRead σ s.ref) ∧
    ((edValuesS σe se).2.1 = se ∧
     storeRead (edValuesS σe se).1 (edValuesS σe se).2.2 = edValues se ∧
     storeRead (edValuesS σe se).1 ie = storeRead σe ie ∧
     storeRead qe.1 (edValuesS σe se).2.2 =
       storeRead (edValuesS σe se).1 (edValuesS σe se).2.2) := by
  have hnew : storeRead (usValuesS σ s).1 (usValuesS σ s).2.2 =
      storeRead σ s.ref := storeRead_alloc_new σ (storeRead σ s.ref)
  have hsnapne : (usValuesS σ s).2.2 ≠ s.ref := by
    show (storeAlloc σ (storeRead σ s.ref)).2 ≠ s.ref
    unfold storeAlloc
    omega
  refine ⟨⟨rfl, hnew, storeRead_alloc_old σ _ i hi, hsnapne, ?_⟩,
    rfl, storeRead_alloc_new σe _, storeRead_alloc_old σe _ ie hie, ?_⟩
  · have hframe := usRunS_frame ops ((usValuesS σ s).1, (usValuesS σ s).2.1)
      (usValuesS σ s).2.2 ?_ ?_ ?_
    · exact hframe.trans hnew
    · show (storeAlloc σ (storeRead σ s.ref)).2 <
        (storeAlloc σ (storeRead σ s.ref)).1.cells.length
      rw [storeAlloc_length]
      unfold storeAlloc
      omega
    · exact hsnapne
    · show s.ref < (storeAlloc σ (storeRead σ s.ref)).1.cells.length
      rw [storeAlloc_length]
      omega
  · rw [edRunS_store eops _ qe herun]

/-- Witness for C9: a one-cell store holding `[1, 2]` for a full uniform
sample of capacity 2, later hit by one overwriting update; an empty
snapshot store for a fresh exponentially-decaying sample, later cleared. -/
theorem sample_values_snapshot_frame_witness :
    (USampleS.mk 2 2 0).ref < (Store.mk [[1, 2]]).cells.length ∧
    (0 : ℕ) < (Store.mk ([[3]] : List (List ℤ))).cells.length ∧
    edRunS
        ((edValuesS (Store.mk [[3]]) (EDSample.mk 0 1 0 3600000000000 [])).1,
         (edValuesS (Store.mk [[3]])
           (EDSample.mk 0 1 0 3600000000000 [])).2.1)
        [EDOp.clear 5] =
      some ((edValuesS (Store.mk [[3]])
          (EDSample.mk 0 1 0 3600000000000 [])).1,
        edClear (EDSample.mk 0 1 0 3600000000000 []) 5) ∧
    storeRead
      (usRunS ((usValuesS (Store.mk [[1, 2]]) (USampleS.mk 2 2 0)).1,
          (usValuesS (Store.mk [[1, 2]]) (USampleS.mk 2 2 0)).2.1)
        [USOp.update 0 9]).1
      (usValuesS (Store.mk [[1, 2]]) (USampleS.mk 2 2 0)).2.2 =
      storeRead (Store.mk [[1, 2]]) (USampleS.mk 2 2 0).ref := by
  refine ⟨by decide, by decide, rfl, ?_⟩
  exact ((sample_values_snapshot_frame (Store.mk [[1, 2]]) (USampleS.mk 2 2 0)
    [USOp.update 0 9] 0 (Store.mk [[3]])
    (EDSample.mk 0 1 0 3600000000000 []) [EDOp.clear 5]
    ((edValuesS (Store.mk [[3]]) (EDSample.mk 0 1 0 3600000000000 [])).1,
      edClear (EDSample.mk 0 1 0 3600000000000 []) 5) 0
    (by decide) (by decide) rfl (by decide)).1).2.2.2.2

end Metrics
